import Mathlib

/-!
Verification development for the deep-layer-langevin repository.

The repository is a notebook orchestrating Langevin-noise optimizers
(LAdam, LRMSprop, LAdadelta and their Layer variants), model builders,
a dataloader and an Experiment driver.  The notebook imports those
modules; their code is modelled here from the specification, faithful
to its words.  Scalar values are idealised as rationals; the square
root used by the host optimizers is passed as an explicit function
parameter; the sampled Gaussian noise is treated as an explicit input.
-/

namespace DLL

/-- Simultaneous traversal of three lists, used to pair every variable
with its gradient and its sampled noise term. -/
def zipWith3 (f : α → β → γ → δ) : List α → List β → List γ → List δ
  | a :: as, b :: bs, c :: cs => f a b c :: zipWith3 f as bs cs
  | _, _, _ => []

/-- A trainable variable: its scalar value together with the
per-variable optimizer slot state (e.g. Adam moment estimates)
owned by the host framework. -/
structure Var (S : Type) where
  slot : S
  value : ℚ
deriving DecidableEq

/-- A base optimizer update rule of the host framework: from the
variable's slot state and its gradient, the new slot state and the
additive parameter update. -/
abbrev Rule (S : Type) := S → ℚ → S × ℚ

/-- Slot state of the host framework's Adam optimizer. -/
structure AdamSlot where
  m : ℚ
  v : ℚ
  t : ℕ
deriving DecidableEq

/-- Slot state of the host framework's RMSprop optimizer. -/
structure RmsSlot where
  v : ℚ
deriving DecidableEq

/-- Slot state of the host framework's Adadelta optimizer. -/
structure AdaSlot where
  v : ℚ
  u : ℚ
deriving DecidableEq

/-- Modelled from the spec: the host framework's Adam update rule
(missing from the snapshot; the notebook only imports its wrapper).
The square root is supplied as the parameter sq. -/
def adamRule (sq : ℚ → ℚ) (lr b1 b2 eps : ℚ) : Rule AdamSlot := fun s g =>
  let m1 := b1 * s.m + (1 - b1) * g
  let v1 := b2 * s.v + (1 - b2) * g * g
  let t1 := s.t + 1
  ⟨⟨m1, v1, t1⟩, -(lr * (m1 / (1 - b1 ^ t1)) / (sq (v1 / (1 - b2 ^ t1)) + eps))⟩

/-- Modelled from the spec: the host framework's RMSprop update rule. -/
def rmspropRule (sq : ℚ → ℚ) (lr rho eps : ℚ) : Rule RmsSlot := fun s g =>
  let v1 := rho * s.v + (1 - rho) * g * g
  ⟨⟨v1⟩, -(lr * g / (sq v1 + eps))⟩

/-- Modelled from the spec: the host framework's Adadelta update rule. -/
def adadeltaRule (sq : ℚ → ℚ) (lr rho eps : ℚ) : Rule AdaSlot := fun s g =>
  let v1 := rho * s.v + (1 - rho) * g * g
  let d := -(lr * (sq (s.u + eps) / sq (v1 + eps)) * g)
  ⟨⟨v1, rho * s.u + (1 - rho) * d * d⟩, d⟩

/-- One noiseless base-optimizer step on a single variable. -/
def baseVarStep (base : Rule S) (v : Var S) (g : ℚ) : Var S :=
  ⟨(base v.slot g).1, v.value + (base v.slot g).2⟩

/-- Modelled from the spec: the Langevin per-variable update rule adds
sigma times the sampled noise term to the base optimizer's update. -/
def langevinVarStep (base : Rule S) (sigma : ℚ) (v : Var S) (g n : ℚ) : Var S :=
  ⟨(base v.slot g).1, v.value + (base v.slot g).2 + sigma * n⟩

/-- The trainable state of a built model: a list of layers, each a list
of variables. -/
abbrev Net (S : Type) := List (List (Var S))

/-- A layered collection of scalars of the same shape as a net
(gradients or sampled noise). -/
abbrev Tensor := List (List ℚ)

/-- One noiseless optimization step of the base optimizer over all
trainable variables of the model. -/
def baseStep (base : Rule S) (net : Net S) (grads : Tensor) : Net S :=
  List.zipWith (List.zipWith (baseVarStep base)) net grads

/-- Modelled from the spec: one step of a Langevin optimizer over all
trainable variables, with the sampled noise an explicit input. -/
def langevinStep (base : Rule S) (sigma : ℚ) (net : Net S) (grads noise : Tensor) : Net S :=
  zipWith3 (fun l g n => zipWith3 (langevinVarStep base sigma) l g n) net grads noise

/-- Perturb every variable value of a net by sigma times the matching
noise entry, leaving slots untouched. -/
def addNoise (sigma : ℚ) (net : Net S) (noise : Tensor) : Net S :=
  List.zipWith (List.zipWith (fun v n => ⟨v.slot, v.value + sigma * n⟩)) net noise

/-- Modelled from the spec: configuration of LAdam(learning_rate, sigma). -/
structure LAdam where
  learning_rate : ℚ
  sigma : ℚ
deriving DecidableEq

/-- Modelled from the spec: configuration of LRMSprop(learning_rate, sigma). -/
structure LRMSprop where
  learning_rate : ℚ
  sigma : ℚ
deriving DecidableEq

/-- Modelled from the spec: configuration of LAdadelta(learning_rate, sigma). -/
structure LAdadelta where
  learning_rate : ℚ
  sigma : ℚ
deriving DecidableEq

/-- The base rule LAdam delegates to: host Adam with the stored
learning rate forwarded verbatim. -/
def LAdam.rule (o : LAdam) (sq : ℚ → ℚ) (b1 b2 eps : ℚ) : Rule AdamSlot :=
  adamRule sq o.learning_rate b1 b2 eps

/-- Modelled from the spec: one LAdam optimization step on the model. -/
def LAdam.step (o : LAdam) (sq : ℚ → ℚ) (b1 b2 eps : ℚ) (net : Net AdamSlot)
    (grads noise : Tensor) : Net AdamSlot :=
  langevinStep (o.rule sq b1 b2 eps) o.sigma net grads noise

/-- The base rule LRMSprop delegates to. -/
def LRMSprop.rule (o : LRMSprop) (sq : ℚ → ℚ) (rho eps : ℚ) : Rule RmsSlot :=
  rmspropRule sq o.learning_rate rho eps

/-- Modelled from the spec: one LRMSprop optimization step on the model. -/
def LRMSprop.step (o : LRMSprop) (sq : ℚ → ℚ) (rho eps : ℚ) (net : Net RmsSlot)
    (grads noise : Tensor) : Net RmsSlot :=
  langevinStep (o.rule sq rho eps) o.sigma net grads noise

/-- The base rule LAdadelta delegates to. -/
def LAdadelta.rule (o : LAdadelta) (sq : ℚ → ℚ) (rho eps : ℚ) : Rule AdaSlot :=
  adadeltaRule sq o.learning_rate rho eps

/-- Modelled from the spec: one LAdadelta optimization step on the model. -/
def LAdadelta.step (o : LAdadelta) (sq : ℚ → ℚ) (rho eps : ℚ) (net : Net AdaSlot)
    (grads noise : Tensor) : Net AdaSlot :=
  langevinStep (o.rule sq rho eps) o.sigma net grads noise

/-- The shape of a layered list: the length of each per-layer list. -/
def shape (t : List (List α)) : List ℕ := t.map List.length

/-- Iterated noiseless training: one base step per gradient tensor. -/
def baseRun (base : Rule S) : Net S → List Tensor → Net S
  | net, [] => net
  | net, g :: gs => baseRun base (baseStep base net g) gs

/-- Modelled from the spec: iterated Langevin training, each step
consuming that step's gradients and sampled noise. -/
def langevinRun (base : Rule S) (sigma : ℚ) : Net S → List (Tensor × Tensor) → Net S
  | net, [] => net
  | net, p :: ps => langevinRun base sigma (langevinStep base sigma net p.1 p.2) ps

/-- Modelled from the spec: configuration of
LayerLAdam(learning_rate, sigma, langevin_layers). -/
structure LayerLAdam where
  learning_rate : ℚ
  sigma : ℚ
  langevin_layers : List ℕ
deriving DecidableEq

/-- Modelled from the spec: configuration of
LayerLRMSprop(learning_rate, sigma, langevin_layers). -/
structure LayerLRMSprop where
  learning_rate : ℚ
  sigma : ℚ
  langevin_layers : List ℕ
deriving DecidableEq

/-- Modelled from the spec: configuration of
LayerLAdadelta(learning_rate, sigma, langevin_layers). -/
structure LayerLAdadelta where
  learning_rate : ℚ
  sigma : ℚ
  langevin_layers : List ℕ
deriving DecidableEq

/-- Modelled from the spec: set_langevin(model), mandatory once the
model is compiled with the optimizer and built, marks each layer of
the built model: layer i is trained with Langevin noise exactly when i
appears in langevin_layers.  The per-layer mask it produces drives the
Layer Langevin update. -/
def set_langevin (langevin_layers : List ℕ) (nbLayers : ℕ) : List Bool :=
  (List.range nbLayers).map (fun i => decide (i ∈ langevin_layers))

/-- Modelled from the spec: one step of a Layer Langevin optimizer:
a layer whose mask is set receives the Langevin update, every other
layer the plain base-optimizer update. -/
def layerStep (base : Rule S) (sigma : ℚ) :
    List Bool → Net S → Tensor → Tensor → Net S
  | b :: bs, l :: ls, g :: gs, n :: ns =>
      (if b then zipWith3 (langevinVarStep base sigma) l g n
       else List.zipWith (baseVarStep base) l g) :: layerStep base sigma bs ls gs ns
  | _, _, _, _ => []

/-- Modelled from the spec: one LayerLAdam optimization step, given
the mask installed by set_langevin. -/
def LayerLAdam.step (o : LayerLAdam) (sq : ℚ → ℚ) (b1 b2 eps : ℚ) (mask : List Bool)
    (net : Net AdamSlot) (grads noise : Tensor) : Net AdamSlot :=
  layerStep (adamRule sq o.learning_rate b1 b2 eps) o.sigma mask net grads noise

/-- Modelled from the spec: one LayerLRMSprop optimization step. -/
def LayerLRMSprop.step (o : LayerLRMSprop) (sq : ℚ → ℚ) (rho eps : ℚ) (mask : List Bool)
    (net : Net RmsSlot) (grads noise : Tensor) : Net RmsSlot :=
  layerStep (rmspropRule sq o.learning_rate rho eps) o.sigma mask net grads noise

/-- Modelled from the spec: one LayerLAdadelta optimization step. -/
def LayerLAdadelta.step (o : LayerLAdadelta) (sq : ℚ → ℚ) (rho eps : ℚ) (mask : List Bool)
    (net : Net AdaSlot) (grads noise : Tensor) : Net AdaSlot :=
  layerStep (adadeltaRule sq o.learning_rate rho eps) o.sigma mask net grads noise

/-- Modelled from the spec: the Experiment configuration, as built in
the notebook: a model builder, a dataloader, the epoch count EPOCHS,
the list of optimizers to compare and the base path for saved results.
Builder and dataloader are abstract type parameters here. -/
structure Experiment (O MB D : Type) where
  model_builder : MB
  dataloader : D
  EPOCHS : ℕ
  optimizers : List O
  base : String

/-- Modelled from the spec: the framework training loop for one
optimizer: run the remaining epochs from the current model state,
appending each epoch's scalar metric to the history list.  fit is the
host framework's one-epoch training step: from the optimizer and the
current model it returns the trained model and that epoch's metric. -/
def fitLoop (fit : O → Mdl → Mdl × M) (o : O) : ℕ → Mdl → List M → Mdl × List M
  | 0, mdl, hist => (mdl, hist)
  | k + 1, mdl, hist => fitLoop fit o k (fit o mdl).1 (hist ++ [(fit o mdl).2])

/-- The per-epoch metric history run_experiment collects for one
optimizer: EPOCHS epochs of training on a freshly built model. -/
def trainOne (e : Experiment O MB D) (build : MB → Mdl) (fit : O → Mdl → Mdl × M)
    (o : O) : List M :=
  (fitLoop fit o e.EPOCHS (build e.model_builder) []).2

/-- Modelled from the spec: run_experiment loops over the experiment's
optimizers in order; for each optimizer it builds a fresh model with
the model builder, trains it with the framework loop, and appends the
collected metrics to the results list. -/
def run_experiment (e : Experiment O MB D) (build : MB → Mdl)
    (fit : O → Mdl → Mdl × M) : List (List M) :=
  e.optimizers.foldl (fun results o => results ++ [trainOne e build fit o]) []

/-- The method calls an Experiment exposes, for the call-order
protocol stated by the notebook. -/
inductive Action where
  | load_data
  | run_experiment
  | plot
  | save_data
deriving DecidableEq

/-- Modelled from the spec: load_data must be used before any
training.  validFrom tracks whether the data has been loaded and
permits run_experiment only afterwards. -/
def validFrom (loaded : Bool) : List Action → Bool
  | [] => true
  | Action.load_data :: rest => validFrom true rest
  | Action.run_experiment :: rest => loaded && validFrom loaded rest
  | _ :: rest => validFrom loaded rest

/-- A valid call sequence on a fresh Experiment, whose data is not yet
loaded. -/
def validCalls (tr : List Action) : Bool := validFrom false tr

/-- An externally visible effect of the program: creating a directory,
writing a CSV file of per-epoch metrics, or plotting the training
curves.  Paths are lists of components. -/
inductive Effect (M : Type) where
  | mkdir (path : List String)
  | writeCSV (path : List String) (name : String) (contents : List M)
  | plotCurves (curves : List (List M))
deriving DecidableEq

/-- The CSV file name used for the optimizer at a given position. -/
def csvName (i : ℕ) : String := toString i ++ ".csv"

/-- The CSV write effects for the collected histories, numbering
optimizers from position k. -/
def csvWrites (path : List String) : ℕ → List (List M) → List (Effect M)
  | _, [] => []
  | i, r :: rs => Effect.writeCSV path (csvName i) r :: csvWrites path (i + 1) rs

/-- Modelled from the spec: save_data(dir) creates the directory
experiment.base/dir (created if absent) and writes each optimizer's
collected per-epoch metrics as a CSV file inside it. -/
def save_data (e : Experiment O MB D) (results : List (List M)) (dir : String) :
    List (Effect M) :=
  Effect.mkdir [e.base, dir] :: csvWrites [e.base, dir] 0 results

/-- Modelled from the spec: the externally visible effect trace of a
full experiment: the plotted training curves followed by save_data's
directory creation and CSV writes; nothing else is emitted. -/
def program_trace (e : Experiment O MB D) (results : List (List M)) (dir : String) :
    List (Effect M) :=
  Effect.plotCurves results :: save_data e results dir

/-- Modelled from the spec: the framework one-epoch training step may
fail with a framework exception; the repository catches and wraps
nothing, chaining outcomes exactly as the framework produced them. -/
def fitLoopE (fit : O → Mdl → Except E (Mdl × M)) (o : O) :
    ℕ → Mdl → List M → Except E (Mdl × List M)
  | 0, mdl, hist => Except.ok (mdl, hist)
  | k + 1, mdl, hist =>
      match fit o mdl with
      | Except.error err => Except.error err
      | Except.ok (mdl1, x) => fitLoopE fit o k mdl1 (hist ++ [x])

/-- Modelled from the spec: the optimizer loop of run_experiment over
fallible framework training: the first framework exception aborts the
run and is passed through untouched. -/
def runE (fit : O → Mdl → Except E (Mdl × M)) (build : MB → Mdl) (mb : MB) (EP : ℕ) :
    List O → List (List M) → Except E (List (List M))
  | [], acc => Except.ok acc
  | o :: os, acc =>
      match fitLoopE fit o EP (build mb) [] with
      | Except.error err => Except.error err
      | Except.ok (_, hist) => runE fit build mb EP os (acc ++ [hist])

/-- run_experiment over fallible framework training. -/
def run_experimentE (e : Experiment O MB D) (build : MB → Mdl)
    (fit : O → Mdl → Except E (Mdl × M)) : Except E (List (List M)) :=
  runE fit build e.model_builder e.EPOCHS e.optimizers []

/-- A framework training step that always raises, standing for a host
framework failure such as a tensor shape mismatch. -/
def failFit : ℕ → ℕ → Except String (ℕ × ℕ) := fun _ _ => Except.error "shape mismatch"

/-- A framework layer, with as much structure as the spec describes. -/
inductive FLayer where
  | dense (units : ℕ)
  | denseOut (units : ℕ)
  | conv2d (filters kernel_size : ℕ)
  | flatten
  | highway (units : ℕ)
  | zeroPad (padding : ℕ × ℕ)
  | inputSpec (shp : ℕ × ℕ × ℕ)
  | resLayer (filters : ℕ) (residual : Bool)
  | denseNetCore
deriving DecidableEq

/-- Modelled from the spec: DenseModel(nb_units, classes). -/
structure DenseModel where
  nb_units : List ℕ
  classes : ℕ

/-- Modelled from the spec: a fully connected model: one ReLU hidden
dense layer per entry of nb_units, then the output layer. -/
def DenseModel.getModel (m : DenseModel) : List FLayer :=
  m.nb_units.map FLayer.dense ++ [FLayer.denseOut m.classes]

/-- Modelled from the spec: ConvDense(nb_conv, filters, kernel_size,
nb_units, classes). -/
structure ConvDense where
  nb_conv : ℕ
  filters : ℕ
  kernel_size : ℕ
  nb_units : List ℕ
  classes : ℕ

/-- Modelled from the spec: nb_conv 2D convolutional layers before the
fully connected layers. -/
def ConvDense.getModel (m : ConvDense) : List FLayer :=
  List.replicate m.nb_conv (FLayer.conv2d m.filters m.kernel_size)
    ++ [FLayer.flatten] ++ m.nb_units.map FLayer.dense ++ [FLayer.denseOut m.classes]

/-- Modelled from the spec: HighwayModel(nb_units, classes). -/
structure HighwayModel where
  nb_units : List ℕ
  classes : ℕ

/-- Modelled from the spec: like DenseModel but with highway hidden
layers and one dense layer before them; all hidden layers share the
same number of units. -/
def HighwayModel.getModel (m : HighwayModel) : List FLayer :=
  (FLayer.dense (m.nb_units.headD 0) :: m.nb_units.map FLayer.highway)
    ++ [FLayer.denseOut m.classes]

/-- Modelled from the spec: ResNet(input_shape, filters, block_layers,
hidden_units, classes, zero_padding, mode). -/
structure ResNet where
  input_shape : ℕ × ℕ × ℕ
  filters : ℕ
  block_layers : List ℕ
  hidden_units : ℕ
  classes : ℕ
  zero_padding : ℕ × ℕ
  mode : String

/-- The residual blocks: one group per entry of block_layers, with the
filter count doubled at every new block; residual connections are
dropped in vgg mode. -/
def resBlocks (filters : ℕ) (residual : Bool) : List ℕ → List FLayer
  | [] => []
  | k :: rest =>
      List.replicate k (FLayer.resLayer filters residual) ++ resBlocks (2 * filters) residual rest

/-- Modelled from the spec: the ResNet architecture built from the
constructor arguments. -/
def ResNet.getModel (m : ResNet) : List FLayer :=
  (FLayer.inputSpec m.input_shape :: FLayer.zeroPad m.zero_padding ::
      FLayer.conv2d m.filters 3 ::
      (resBlocks m.filters (m.mode == "resnet") m.block_layers
        ++ [FLayer.flatten, FLayer.dense m.hidden_units]))
    ++ [FLayer.denseOut m.classes]

/-- Modelled from the spec: DenseNet(input_shape, classes). -/
structure DenseNet where
  input_shape : ℕ × ℕ × ℕ
  classes : ℕ

/-- Modelled from the spec: the DenseNet-121 architecture on the given
input shape, with the output layer for the requested classes; the
backbone itself is framework-provided. -/
def DenseNet.getModel (m : DenseNet) : List FLayer :=
  [FLayer.inputSpec m.input_shape, FLayer.denseNetCore] ++ [FLayer.denseOut m.classes]

theorem zipWith3_eq_zipWith_zipWith (base : Rule S) (sigma : ℚ) :
    ∀ (l : List (Var S)) (g n : List ℚ),
      zipWith3 (langevinVarStep base sigma) l g n =
        List.zipWith (fun v x => ⟨v.slot, v.value + sigma * x⟩)
          (List.zipWith (baseVarStep base) l g) n
  | [], g, n => by cases g <;> cases n <;> rfl
  | _ :: _, [], n => by cases n <;> rfl
  | _ :: _, _ :: _, [] => rfl
  | v :: l, g :: gs, n :: ns => by
      simp only [zipWith3, List.zipWith, List.cons.injEq]
      exact ⟨rfl, zipWith3_eq_zipWith_zipWith base sigma l gs ns⟩

theorem langevinStep_eq (base : Rule S) (sigma : ℚ) :
    ∀ (net : Net S) (grads noise : Tensor),
      langevinStep base sigma net grads noise =
        addNoise sigma (baseStep base net grads) noise
  | [], g, n => by cases g <;> cases n <;> rfl
  | _ :: _, [], n => by cases n <;> rfl
  | _ :: _, _ :: _, [] => rfl
  | l :: net, g :: gs, n :: ns => by
      simp only [langevinStep, baseStep, addNoise, zipWith3, List.zipWith, List.cons.injEq]
      refine ⟨?_, langevinStep_eq base sigma net gs ns⟩
      exact zipWith3_eq_zipWith_zipWith base sigma l g n

/-- C1: for every trainable variable and optimization step, each
Langevin optimizer (LAdam, LRMSprop, LAdadelta) computes the base
framework optimizer's update (Adam, RMSprop, Adadelta) plus sigma
times the sampled noise term: with the noise an explicit input, the
perturbed step equals the base step plus sigma times noise. -/
theorem langevin_step_is_base_plus_scaled_noise
    (sq : ℚ → ℚ) (b1 b2 eps rho : ℚ)
    (oA : LAdam) (oR : LRMSprop) (oD : LAdadelta)
    (netA : Net AdamSlot) (netR : Net RmsSlot) (netD : Net AdaSlot)
    (grads noise : Tensor) :
    oA.step sq b1 b2 eps netA grads noise =
        addNoise oA.sigma (baseStep (oA.rule sq b1 b2 eps) netA grads) noise
    ∧ oR.step sq rho eps netR grads noise =
        addNoise oR.sigma (baseStep (oR.rule sq rho eps) netR grads) noise
    ∧ oD.step sq rho eps netD grads noise =
        addNoise oD.sigma (baseStep (oD.rule sq rho eps) netD grads) noise :=
  ⟨langevinStep_eq _ _ _ _ _, langevinStep_eq _ _ _ _ _, langevinStep_eq _ _ _ _ _⟩

theorem addNoise_zero_layer :
    ∀ (l : List (Var S)) (n : List ℚ), n.length = l.length →
      List.zipWith (fun v x => (⟨v.slot, v.value + 0 * x⟩ : Var S)) l n = l
  | [], _, _ => rfl
  | v :: l, [], h => by simp at h
  | v :: l, x :: n, h => by
      simp only [List.zipWith, List.cons.injEq]
      refine ⟨by simp, addNoise_zero_layer l n ?_⟩
      simpa using h

theorem addNoise_zero :
    ∀ (net : Net S) (noise : Tensor), shape noise = shape net →
      addNoise 0 net noise = net
  | [], noise, _ => by cases noise <;> rfl
  | l :: ls, [], h => by simp [shape] at h
  | l :: ls, n :: ns, h => by
      simp only [shape, List.map, List.cons.injEq] at h
      simp only [addNoise, List.zipWith, List.cons.injEq]
      exact ⟨addNoise_zero_layer l n h.1, addNoise_zero ls ns h.2⟩

theorem shape_baseStep (base : Rule S) :
    ∀ (net : Net S) (grads : Tensor), shape grads = shape net →
      shape (baseStep base net grads) = shape net
  | [], grads, _ => by cases grads <;> rfl
  | l :: ls, [], h => by simp [shape] at h
  | l :: ls, g :: gs, h => by
      simp only [shape, List.map, List.cons.injEq] at h
      simp only [baseStep, shape, List.zipWith, List.map, List.cons.injEq]
      exact ⟨by rw [List.length_zipWith, h.1, Nat.min_self], shape_baseStep base ls gs h.2⟩

theorem langevinRun_zero (base : Rule S) :
    ∀ (steps : List (Tensor × Tensor)) (net : Net S),
      (∀ p ∈ steps, shape p.1 = shape net ∧ shape p.2 = shape net) →
      langevinRun base 0 net steps = baseRun base net (steps.map Prod.fst)
  | [], _, _ => rfl
  | p :: ps, net, h => by
      obtain ⟨h1, h2⟩ := h p (List.mem_cons_self p ps)
      have hstep : langevinStep base 0 net p.1 p.2 = baseStep base net p.1 := by
        rw [langevinStep_eq]
        exact addNoise_zero _ _ (by rw [shape_baseStep base net p.1 h1]; exact h2)
      simp only [langevinRun, baseRun, List.map, hstep]
      refine langevinRun_zero base ps (baseStep base net p.1) ?_
      intro q hq
      rw [shape_baseStep base net p.1 h1]
      exact h q (List.mem_cons_of_mem p hq)

/-- C5: an LAdam built with sigma = 0 produces, for every model,
gradient sequence and step count, exactly the parameter updates of
plain Adam: the scaled noise term vanishes identically, whatever noise
was sampled. -/
theorem ladam_sigma_zero_is_adam (sq : ℚ → ℚ) (b1 b2 eps : ℚ) (o : LAdam)
    (net : Net AdamSlot) (steps : List (Tensor × Tensor))
    (h0 : o.sigma = 0)
    (hsh : ∀ p ∈ steps, shape p.1 = shape net ∧ shape p.2 = shape net) :
    langevinRun (o.rule sq b1 b2 eps) o.sigma net steps =
      baseRun (adamRule sq o.learning_rate b1 b2 eps) net (steps.map Prod.fst) := by
  rw [h0]
  exact langevinRun_zero (o.rule sq b1 b2 eps) steps net hsh

/-- Concrete run of the sigma = 0 coincidence with plain Adam. -/
theorem ladam_sigma_zero_is_adam_check :
    langevinRun ((LAdam.mk (1/100) 0).rule id (9/10) (999/1000) (1/1000000))
        (LAdam.mk (1/100) 0).sigma
        [[⟨⟨0, 0, 0⟩, 1⟩, ⟨⟨0, 0, 0⟩, 2⟩]] [([[1, 1]], [[5, 7]])] =
      baseRun (adamRule id (1/100) (9/10) (999/1000) (1/1000000))
        [[⟨⟨0, 0, 0⟩, 1⟩, ⟨⟨0, 0, 0⟩, 2⟩]] ([([[1, 1]], [[5, 7]])].map Prod.fst) :=
  ladam_sigma_zero_is_adam id (9/10) (999/1000) (1/1000000) (LAdam.mk (1/100) 0)
    [[⟨⟨0, 0, 0⟩, 1⟩, ⟨⟨0, 0, 0⟩, 2⟩]] [([[1, 1]], [[5, 7]])] rfl (by decide)

theorem layerStep_get (base : Rule S) (sigma : ℚ) :
    ∀ (bs : List Bool) (ls : Net S) (gs ns : Tensor) (i : ℕ),
      i < bs.length → i < ls.length → i < gs.length → i < ns.length →
      (layerStep base sigma bs ls gs ns)[i]? =
        some (if bs.getD i false = true
              then zipWith3 (langevinVarStep base sigma)
                     (ls.getD i []) (gs.getD i []) (ns.getD i [])
              else List.zipWith (baseVarStep base) (ls.getD i []) (gs.getD i []))
  | b :: bs, l :: ls, g :: gs, n :: ns, 0, _, _, _, _ => by
      simp [layerStep]
  | b :: bs, l :: ls, g :: gs, n :: ns, i + 1, h1, h2, h3, h4 => by
      simp only [layerStep, List.getElem?_cons_succ, List.getD_cons_succ]
      exact layerStep_get base sigma bs ls gs ns i (Nat.lt_of_succ_lt_succ h1)
        (Nat.lt_of_succ_lt_succ h2) (Nat.lt_of_succ_lt_succ h3) (Nat.lt_of_succ_lt_succ h4)
  | [], ls, gs, ns, i, h1, _, _, _ => absurd h1 (by simp)
  | _ :: _, [], gs, ns, i, _, h2, _, _ => absurd h2 (by simp)
  | _ :: _, _ :: _, [], ns, i, _, _, h3, _ => absurd h3 (by simp)
  | _ :: _, _ :: _, _ :: _, [], i, _, _, _, h4 => absurd h4 (by simp)

theorem baseStep_getD (base : Rule S) :
    ∀ (ls : Net S) (gs : Tensor) (i : ℕ), i < ls.length → i < gs.length →
      (baseStep base ls gs).getD i [] =
        List.zipWith (baseVarStep base) (ls.getD i []) (gs.getD i [])
  | l :: ls, g :: gs, 0, _, _ => rfl
  | l :: ls, g :: gs, i + 1, h1, h2 => by
      simp only [baseStep, List.zipWith, List.getD_cons_succ]
      exact baseStep_getD base ls gs i (Nat.lt_of_succ_lt_succ h1) (Nat.lt_of_succ_lt_succ h2)
  | [], gs, i, h1, _ => absurd h1 (by simp)
  | _ :: _, [], i, _, h2 => absurd h2 (by simp)

theorem set_langevin_getD (ll : List ℕ) (n i : ℕ) (h : i < n) :
    (set_langevin ll n).getD i false = decide (i ∈ ll) := by
  rw [set_langevin, List.getD_eq_getElem?_getD, List.getElem?_map, List.getElem?_range h]
  rfl

theorem layerStep_frame (base : Rule S) (sigma : ℚ) (ll : List ℕ)
    (net : Net S) (grads noise : Tensor) (i : ℕ)
    (h1 : i < net.length) (h2 : i < grads.length) (h3 : i < noise.length) :
    (i ∉ ll →
      (layerStep base sigma (set_langevin ll net.length) net grads noise)[i]? =
        some ((baseStep base net grads).getD i []))
    ∧ (i ∈ ll →
      (layerStep base sigma (set_langevin ll net.length) net grads noise)[i]? =
        some (zipWith3 (langevinVarStep base sigma)
          (net.getD i []) (grads.getD i []) (noise.getD i []))) := by
  have hm : i < (set_langevin ll net.length).length := by
    simp only [set_langevin, List.length_map, List.length_range]
    exact h1
  have key := layerStep_get base sigma (set_langevin ll net.length) net grads noise i hm h1 h2 h3
  rw [set_langevin_getD ll net.length i h1] at key
  constructor
  · intro hni
    rw [key, baseStep_getD base net grads i h1 h2]
    simp [hni]
  · intro hi
    rw [key]
    simp [hi]

/-- C4: after set_langevin(model) has installed the per-layer mask
from langevin_layers, each Layer Langevin optimizer (LayerLAdam,
LayerLRMSprop, LayerLAdadelta) adds the Gaussian noise term only to
updates of variables in layers whose index is listed in
langevin_layers; every variable of every other layer receives exactly
the noiseless base-optimizer update. -/
theorem layer_langevin_noise_only_in_listed_layers
    (sq : ℚ → ℚ) (b1 b2 eps rho : ℚ)
    (oA : LayerLAdam) (netA : Net AdamSlot)
    (oR : LayerLRMSprop) (netR : Net RmsSlot)
    (oD : LayerLAdadelta) (netD : Net AdaSlot)
    (grads noise : Tensor) (i : ℕ)
    (hA : i < netA.length) (hR : i < netR.length) (hD : i < netD.length)
    (h2 : i < grads.length) (h3 : i < noise.length) :
    ((i ∉ oA.langevin_layers →
        (oA.step sq b1 b2 eps (set_langevin oA.langevin_layers netA.length) netA grads noise)[i]? =
          some ((baseStep (adamRule sq oA.learning_rate b1 b2 eps) netA grads).getD i []))
      ∧ (i ∈ oA.langevin_layers →
        (oA.step sq b1 b2 eps (set_langevin oA.langevin_layers netA.length) netA grads noise)[i]? =
          some (zipWith3 (langevinVarStep (adamRule sq oA.learning_rate b1 b2 eps) oA.sigma)
            (netA.getD i []) (grads.getD i []) (noise.getD i []))))
    ∧ ((i ∉ oR.langevin_layers →
        (oR.step sq rho eps (set_langevin oR.langevin_layers netR.length) netR grads noise)[i]? =
          some ((baseStep (rmspropRule sq oR.learning_rate rho eps) netR grads).getD i []))
      ∧ (i ∈ oR.langevin_layers →
        (oR.step sq rho eps (set_langevin oR.langevin_layers netR.length) netR grads noise)[i]? =
          some (zipWith3 (langevinVarStep (rmspropRule sq oR.learning_rate rho eps) oR.sigma)
            (netR.getD i []) (grads.getD i []) (noise.getD i []))))
    ∧ ((i ∉ oD.langevin_layers →
        (oD.step sq rho eps (set_langevin oD.langevin_layers netD.length) netD grads noise)[i]? =
          some ((baseStep (adadeltaRule sq oD.learning_rate rho eps) netD grads).getD i []))
      ∧ (i ∈ oD.langevin_layers →
        (oD.step sq rho eps (set_langevin oD.langevin_layers netD.length) netD grads noise)[i]? =
          some (zipWith3 (langevinVarStep (adadeltaRule sq oD.learning_rate rho eps) oD.sigma)
            (netD.getD i []) (grads.getD i []) (noise.getD i [])))) :=
  ⟨layerStep_frame _ oA.sigma oA.langevin_layers netA grads noise i hA h2 h3,
   layerStep_frame _ oR.sigma oR.langevin_layers netR grads noise i hR h2 h3,
   layerStep_frame _ oD.sigma oD.langevin_layers netD grads noise i hD h2 h3⟩

/-- Concrete instance of the Layer Langevin frame property: with
langevin_layers = [0], layer 1 takes the plain noiseless update. -/
theorem layer_langevin_noise_only_in_listed_layers_check :
    ((LayerLAdam.mk (1/100) (1/2) [0]).step id (9/10) (999/1000) (1/1000000)
        (set_langevin [0] 2) [[⟨⟨0, 0, 0⟩, 1⟩], [⟨⟨0, 0, 0⟩, 2⟩]] [[1], [1]] [[3], [4]])[1]? =
      some ((baseStep (adamRule id (1/100) (9/10) (999/1000) (1/1000000))
        [[⟨⟨0, 0, 0⟩, 1⟩], [⟨⟨0, 0, 0⟩, 2⟩]] [[1], [1]]).getD 1 []) :=
  (layer_langevin_noise_only_in_listed_layers id (9/10) (999/1000) (1/1000000) (1/2)
    (LayerLAdam.mk (1/100) (1/2) [0]) [[⟨⟨0, 0, 0⟩, 1⟩], [⟨⟨0, 0, 0⟩, 2⟩]]
    (LayerLRMSprop.mk (1/100) (1/2) [0]) [[⟨⟨0⟩, 1⟩], [⟨⟨0⟩, 2⟩]]
    (LayerLAdadelta.mk (1/100) (1/2) [0]) [[⟨⟨0, 0⟩, 1⟩], [⟨⟨0, 0⟩, 2⟩]]
    [[1], [1]] [[3], [4]] 1
    (by decide) (by decide) (by decide) (by decide) (by decide)).1.1 (by decide)

theorem foldl_append_singleton (f : α → β) :
    ∀ (l : List α) (acc : List β),
      l.foldl (fun r o => r ++ [f o]) acc = acc ++ l.map f
  | [], acc => by simp
  | a :: l, acc => by
      simp only [List.foldl, List.map]
      rw [foldl_append_singleton f l (acc ++ [f a])]
      simp

theorem run_experiment_as_map (e : Experiment O MB D) (build : MB → Mdl)
    (fit : O → Mdl → Mdl × M) :
    run_experiment e build fit = e.optimizers.map (trainOne e build fit) := by
  simpa using foldl_append_singleton (trainOne e build fit) e.optimizers []

theorem fitLoop_length (fit : O → Mdl → Mdl × M) (o : O) :
    ∀ (k : ℕ) (mdl : Mdl) (hist : List M),
      (fitLoop fit o k mdl hist).2.length = hist.length + k
  | 0, _, _ => rfl
  | k + 1, mdl, hist => by
      simp only [fitLoop]
      rw [fitLoop_length fit o k]
      simp only [List.length_append, List.length_cons, List.length_nil]
      omega

/-- C2: after run_experiment completes, every entry of the in-memory
results collection holds exactly EPOCHS per-epoch scalar metrics. -/
theorem run_experiment_metrics_length (e : Experiment O MB D)
    (build : MB → Mdl) (fit : O → Mdl → Mdl × M)
    (hist : List M) (hmem : hist ∈ run_experiment e build fit) :
    hist.length = e.EPOCHS := by
  rw [run_experiment_as_map] at hmem
  obtain ⟨o, _, rfl⟩ := List.mem_map.mp hmem
  simpa [trainOne] using fitLoop_length fit o e.EPOCHS (build e.model_builder) []

/-- Concrete instance of the metrics-length invariant. -/
theorem run_experiment_metrics_length_check : List.length [0, 1] = 2 :=
  run_experiment_metrics_length
    (Experiment.mk () () 2 [0] "./") (fun _ => (0 : ℕ)) (fun _ m => (m + 1, m))
    [0, 1] (by decide)

/-- C3: run_experiment iterates over the optimizers sequentially in
the given order, training a freshly built model for each and appending
its metrics to the results list: the results are exactly the map of
per-optimizer metric histories over the optimizers list, one entry per
optimizer. -/
theorem run_experiment_one_entry_per_optimizer (e : Experiment O MB D)
    (build : MB → Mdl) (fit : O → Mdl → Mdl × M) :
    run_experiment e build fit = e.optimizers.map (trainOne e build fit)
    ∧ (run_experiment e build fit).length = e.optimizers.length := by
  refine ⟨run_experiment_as_map e build fit, ?_⟩
  rw [run_experiment_as_map e build fit, List.length_map]

/-- C7: in every valid execution sequence of an Experiment, load_data
precedes run_experiment: run_experiment never executes before the data
has been loaded. -/
theorem load_data_precedes_run_experiment :
    ∀ (tr : List Action) (i : ℕ), validCalls tr = true →
      tr[i]? = some Action.run_experiment →
      ∃ j, j < i ∧ tr[j]? = some Action.load_data
  | [], i, _, hi => by simp at hi
  | Action.load_data :: _, 0, _, hi => by simp at hi
  | Action.load_data :: _, i + 1, _, _ => ⟨0, Nat.succ_pos i, by simp⟩
  | Action.run_experiment :: _, _, hv, _ => by
      simp [validCalls, validFrom] at hv
  | Action.plot :: tr, 0, _, hi => by simp at hi
  | Action.plot :: tr, i + 1, hv, hi => by
      obtain ⟨j, hj, hjl⟩ := load_data_precedes_run_experiment tr i hv (by simpa using hi)
      exact ⟨j + 1, Nat.succ_lt_succ hj, by simpa using hjl⟩
  | Action.save_data :: tr, 0, _, hi => by simp at hi
  | Action.save_data :: tr, i + 1, hv, hi => by
      obtain ⟨j, hj, hjl⟩ := load_data_precedes_run_experiment tr i hv (by simpa using hi)
      exact ⟨j + 1, Nat.succ_lt_succ hj, by simpa using hjl⟩

/-- Concrete instance of the call-order protocol: in the notebook's
own sequence, the training call at position 1 is preceded by a
load_data call. -/
theorem load_data_precedes_run_experiment_check :
    ∃ j, j < 1 ∧
      [Action.load_data, Action.run_experiment, Action.plot, Action.save_data][j]? =
        some Action.load_data :=
  load_data_precedes_run_experiment
    [Action.load_data, Action.run_experiment, Action.plot, Action.save_data] 1
    (by decide) (by decide)

theorem csvWrites_mem (path : List String) :
    ∀ (k : ℕ) (rs : List (List M)) (eff : Effect M), eff ∈ csvWrites path k rs →
      ∃ i, ∃ h : i < rs.length,
        eff = Effect.writeCSV path (csvName (k + i)) (rs.get ⟨i, h⟩)
  | _, [], _, h => absurd h (by simp [csvWrites])
  | k, r :: rs, eff, h => by
      rcases List.mem_cons.mp h with h0 | h1
      · exact ⟨0, Nat.succ_pos _, by simpa using h0⟩
      · obtain ⟨i, hi, he⟩ := csvWrites_mem path (k + 1) rs eff h1
        refine ⟨i + 1, Nat.succ_lt_succ hi, ?_⟩
        have hk : k + 1 + i = k + (i + 1) := by omega
        rw [he, hk]
        rfl

/-- C6: save_data(dir) creates the directory experiment.base/dir and
writes each optimizer's collected per-epoch metrics as a CSV file into
that directory; these CSV files together with the plotted training
curves are the only externally visible outputs of the program. -/
theorem save_data_outputs (e : Experiment O MB D) (results : List (List M)) (dir : String) :
    (save_data e results dir).head? = some (Effect.mkdir [e.base, dir])
    ∧ (∀ eff ∈ save_data e results dir,
        eff = Effect.mkdir [e.base, dir]
        ∨ ∃ i, ∃ h : i < results.length,
            eff = Effect.writeCSV [e.base, dir] (csvName i) (results.get ⟨i, h⟩))
    ∧ (∀ eff ∈ program_trace e results dir,
        eff = Effect.plotCurves results ∨ eff ∈ save_data e results dir) := by
  refine ⟨rfl, ?_, ?_⟩
  · intro eff h
    rcases List.mem_cons.mp h with h0 | h1
    · exact Or.inl h0
    · obtain ⟨i, hi, he⟩ := csvWrites_mem [e.base, dir] 0 results eff h1
      exact Or.inr ⟨i, hi, by simpa using he⟩
  · intro eff h
    exact List.mem_cons.mp h

/-- Concrete instance of the save_data output description. -/
theorem save_data_outputs_check :
    (Effect.mkdir ["./", "d"] : Effect ℚ) = Effect.mkdir ["./", "d"]
    ∨ ∃ i, ∃ h : i < [[(3 : ℚ), 4]].length,
        (Effect.mkdir ["./", "d"] : Effect ℚ) =
          Effect.writeCSV ["./", "d"] (csvName i) ([[(3 : ℚ), 4]].get ⟨i, h⟩) :=
  (save_data_outputs (Experiment.mk () () 1 [(0 : ℕ)] "./") [[(3 : ℚ), 4]] "d").2.1
    (Effect.mkdir ["./", "d"]) (by decide)

/-- C8: user-supplied configuration values — learning rate, noise
scale sigma, langevin_layers, and the Experiment's arguments — are
stored and forwarded verbatim, with no transformation, rescaling or
validation by original code; in particular LAdam's rule is host Adam
at the stored learning rate, unchanged. -/
theorem config_passed_verbatim (lr s : ℚ) (ll : List ℕ) (sq : ℚ → ℚ) (b1 b2 eps : ℚ)
    (O MB D : Type) (m : MB) (d : D) (EP : ℕ) (os : List O) (b : String) :
    (LAdam.mk lr s).learning_rate = lr ∧ (LAdam.mk lr s).sigma = s
    ∧ (LRMSprop.mk lr s).learning_rate = lr ∧ (LRMSprop.mk lr s).sigma = s
    ∧ (LAdadelta.mk lr s).learning_rate = lr ∧ (LAdadelta.mk lr s).sigma = s
    ∧ (LayerLAdam.mk lr s ll).learning_rate = lr ∧ (LayerLAdam.mk lr s ll).sigma = s
    ∧ (LayerLAdam.mk lr s ll).langevin_layers = ll
    ∧ (LayerLRMSprop.mk lr s ll).langevin_layers = ll
    ∧ (LayerLAdadelta.mk lr s ll).langevin_layers = ll
    ∧ (LAdam.mk lr s).rule sq b1 b2 eps = adamRule sq lr b1 b2 eps
    ∧ (Experiment.mk m d EP os b).optimizers = os
    ∧ (Experiment.mk m d EP os b).EPOCHS = EP
    ∧ (Experiment.mk m d EP os b).base = b :=
  ⟨rfl, rfl, rfl, rfl, rfl, rfl, rfl, rfl, rfl, rfl, rfl, rfl, rfl, rfl, rfl⟩

theorem fitLoopE_error (fit : O → Mdl → Except E (Mdl × M)) (o : O) :
    ∀ (k : ℕ) (mdl : Mdl) (hist : List M) (err : E),
      fitLoopE fit o k mdl hist = Except.error err →
      ∃ m, fit o m = Except.error err
  | 0, _, _, _, h => by simp [fitLoopE] at h
  | k + 1, mdl, hist, err, h => by
      simp only [fitLoopE] at h
      split at h
      next err2 heq =>
        injection h with h2
        subst h2
        exact ⟨mdl, heq⟩
      next mdl1 x heq =>
        exact fitLoopE_error fit o k mdl1 (hist ++ [x]) err h

theorem runE_error (fit : O → Mdl → Except E (Mdl × M)) (build : MB → Mdl)
    (mb : MB) (EP : ℕ) :
    ∀ (os : List O) (acc : List (List M)) (err : E),
      runE fit build mb EP os acc = Except.error err →
      ∃ o ∈ os, ∃ m, fit o m = Except.error err
  | [], _, _, h => by simp [runE] at h
  | o :: os, acc, err, h => by
      simp only [runE] at h
      split at h
      next err2 heq =>
        injection h with h2
        subst h2
        exact ⟨o, List.mem_cons_self o os, fitLoopE_error fit o EP (build mb) [] err2 heq⟩
      next mdl1 hist heq =>
        obtain ⟨o2, ho2, hm⟩ := runE_error fit build mb EP os (acc ++ [hist]) err h
        exact ⟨o2, List.mem_cons_of_mem o ho2, hm⟩

/-- C9: no repository code catches, translates or wraps errors: when a
full experiment run fails, the exception reaching the caller is
exactly an exception raised by a host-framework training call. -/
theorem framework_errors_reach_caller (e : Experiment O MB D) (build : MB → Mdl)
    (fit : O → Mdl → Except E (Mdl × M)) (err : E)
    (h : run_experimentE e build fit = Except.error err) :
    ∃ o ∈ e.optimizers, ∃ m, fit o m = Except.error err :=
  runE_error fit build e.model_builder e.EPOCHS e.optimizers [] err h

/-- Concrete instance: a framework shape error reaches the caller
verbatim. -/
theorem framework_errors_reach_caller_check :
    ∃ o ∈ [(0 : ℕ)], ∃ m, failFit o m = Except.error "shape mismatch" :=
  framework_errors_reach_caller (Experiment.mk () () 1 [(0 : ℕ)] "./") (fun _ => (0 : ℕ))
    failFit "shape mismatch" rfl

/-- C10: each of the five model builders (DenseModel, ConvDense,
HighwayModel, ResNet, DenseNet) provides getModel(), which for every
set of constructor arguments returns a framework model built from
those arguments: the model ends in the output layer for the requested
classes and its structure reflects the arguments (one hidden layer per
nb_units entry, the convolution count, the input shape). -/
theorem getModel_builds_model (dm : DenseModel) (cd : ConvDense)
    (hw : HighwayModel) (rn : ResNet) (dn : DenseNet) :
    dm.getModel.getLast? = some (FLayer.denseOut dm.classes)
    ∧ dm.getModel.length = dm.nb_units.length + 1
    ∧ cd.getModel.getLast? = some (FLayer.denseOut cd.classes)
    ∧ cd.getModel.length = cd.nb_conv + cd.nb_units.length + 2
    ∧ hw.getModel.getLast? = some (FLayer.denseOut hw.classes)
    ∧ rn.getModel.getLast? = some (FLayer.denseOut rn.classes)
    ∧ rn.getModel.head? = some (FLayer.inputSpec rn.input_shape)
    ∧ dn.getModel.getLast? = some (FLayer.denseOut dn.classes)
    ∧ dn.getModel.head? = some (FLayer.inputSpec dn.input_shape) := by
  refine ⟨?_, ?_, ?_, ?_, ?_, ?_, rfl, ?_, rfl⟩
  · exact List.getLast?_concat _
  · simp [DenseModel.getModel]
  · exact List.getLast?_concat _
  · simp [ConvDense.getModel]
    omega
  · exact List.getLast?_concat _
  · exact List.getLast?_concat _
  · exact List.getLast?_concat _

end DLL
